import Mathlib

/-!
# PocoSDK remote-control server: `PocoManager.cpp`

A shallow embedding of `Source/PocoSDK/Private/PocoManager.cpp`
(`Poco::FPocoManager` and `Poco::FPocoWorker`) together with theorems about
the worker pool, the request handler and the length-prefixed framing of
responses.

Conventions of the embedding.

* Member functions become functions on the object's fields; a `void` member
  returns the updated object, a `bool` member returns the flag and the updated
  object.
* `int32` values are integers reduced by `toInt32`; bytes are natural numbers.
* Engine classes (`FSocket`, `FJsonObject`, `TArray`, `FString`) are modelled by
  the part of their behaviour `PocoManager.cpp` relies on.
* `FJsonParser`, `GetJsonString` and `UE4Dumper` are declared in headers that
  are not part of the file at hand: the parser is a parameter, the outcome of
  `GetJsonString` and the dumper's result are inputs of `HandleRequest`.
-/

namespace Poco

/-! ## Engine types -/

/-- An `FString` is modelled by a Lean string. -/
abbrev FString := String

/-- The engine's `ESearchCase::Type`. -/
inductive ESearchCase where
  | CaseSensitive
  | IgnoreCase
  deriving DecidableEq, Repr

/-- `FString::Equals(Other, SearchCase)`: with `IgnoreCase` the two texts are
compared character by character after folding the letters `A`-`Z` to lower
case. -/
def FString.Equals (a b : FString) (SearchCase : ESearchCase) : Bool :=
  match SearchCase with
  | ESearchCase.CaseSensitive => a.data == b.data
  | ESearchCase.IgnoreCase => a.data.map Char.toLower == b.data.map Char.toLower

/-- A JSON value (`FJsonValue`); numbers are restricted to integers. -/
inductive FJsonValue where
  | Null
  | Boolean (b : Bool)
  | Number (n : Int)
  | String (s : FString)
  | Array (xs : List FJsonValue)
  | Object (fields : List (FString × FJsonValue))

/-- An `FJsonObject`: its `Values` map, as the list of its entries. -/
abbrev FJsonObject := List (FString × FJsonValue)

/-- `FJsonObject::TryGetField`: the value stored under a field name. -/
def FJsonObject.Field (o : FJsonObject) (Name : FString) : Option FJsonValue :=
  match o with
  | [] => none
  | (k, v) :: rest => if k = Name then some v else FJsonObject.Field rest Name

/-- `FJsonObject::SetField` (`Values.Add`): the value of an existing entry is
replaced, a new entry is added otherwise. -/
def FJsonObject.SetField (o : FJsonObject) (Name : FString) (Value : FJsonValue) :
    FJsonObject :=
  match o with
  | [] => [(Name, Value)]
  | (k, v) :: rest =>
    if k = Name then (k, Value) :: rest
    else (k, v) :: FJsonObject.SetField rest Name Value

/-- `FJsonObject::SetStringField`. -/
def FJsonObject.SetStringField (o : FJsonObject) (Name : FString) (Value : FString) :
    FJsonObject :=
  FJsonObject.SetField o Name (FJsonValue.String Value)

/-- `FJsonObject::SetObjectField`. -/
def FJsonObject.SetObjectField (o : FJsonObject) (Name : FString) (Value : FJsonObject) :
    FJsonObject :=
  FJsonObject.SetField o Name (FJsonValue.Object Value)

/-- Two objects are the same JSON object when every field name has the same
value in both (the order of the entries is immaterial). -/
def FJsonObject.Same (a b : FJsonObject) : Prop :=
  ∀ Name : FString, FJsonObject.Field a Name = FJsonObject.Field b Name

/-- Reduction of an integer to the range of `int32` (two's complement). -/
def toInt32 (x : Int) : Int :=
  (x + 2147483648) % 4294967296 - 2147483648

/-- The four bytes an `int32` occupies in memory, lowest byte first (the
engine's platforms are little-endian): what
`reinterpret_cast<const uint8*>(&Length)` points at. -/
def rawBytes (x : Int) : List Nat :=
  let u := (x % 4294967296).toNat
  [u % 256, u / 256 % 256, u / 65536 % 256, u / 16777216 % 256]

/-- A `const uint8*`: the buffer it points into, the offset from the buffer's
start, and the contents of the memory around the buffer (by offset from the
buffer's start), which a read outside the buffer yields. -/
structure BytePtr where
  Buffer : List Nat
  Offset : Int
  Stray : Int → Nat

/-- The byte `j` places after the pointer. -/
def BytePtr.read (p : BytePtr) (j : Nat) : Nat :=
  let i := p.Offset + j
  if 0 ≤ i ∧ i < p.Buffer.length then p.Buffer.getD i.toNat 0 else p.Stray i

/-- One call of `FSocket::Send` as the transport saw it: where the data
pointer stood in its buffer, the buffer's length, and the count asked for. -/
structure SendCall where
  Offset : Int
  BufferLength : Nat
  Count : Int
  deriving DecidableEq, Repr

/-- The call asked only for bytes of its buffer. -/
def SendCall.InBounds (c : SendCall) : Prop :=
  0 ≤ c.Offset ∧ c.Offset + c.Count ≤ c.BufferLength

instance (c : SendCall) : Decidable c.InBounds := by
  unfold SendCall.InBounds; infer_instance

/-- The sending side of an `FSocket`. `Accept k n` is the transport's answer
to its `k`-th `Send` call (counted from 0) when `n` bytes are offered: `none`
is a failed call, `some m` a successful call that took `m` bytes (never more
than offered). `Wire` holds the bytes taken so far, in order: what the peer
receives. `Calls` records the calls made. -/
structure FSocket where
  Accept : Nat → Nat → Option Nat
  Wire : List Nat
  Calls : List SendCall

/-- `FSocket::Send(Data, Count, BytesSent)`: the result flag, `BytesSent` and
the socket afterwards. -/
def FSocket.Send (s : FSocket) (Data : BytePtr) (Count : Int) : Bool × Int × FSocket :=
  let call : SendCall := ⟨Data.Offset, Data.Buffer.length, Count⟩
  match s.Accept s.Calls.length Count.toNat with
  | none => (false, -1, { s with Calls := s.Calls ++ [call] })
  | some m =>
    let taken := min m Count.toNat
    (true, taken,
      { s with Wire := s.Wire ++ (List.range taken).map Data.read,
               Calls := s.Calls ++ [call] })

/-- `TArray::RemoveAll(Predicate)`: the elements matching the predicate are
dropped, the others keep their order. -/
def TArray.RemoveAll {α : Type} (Predicate : α → Bool) : List α → List α
  | [] => []
  | x :: xs =>
    if Predicate x then TArray.RemoveAll Predicate xs
    else x :: TArray.RemoveAll Predicate xs

/-! ## `FPocoWorker` -/

/-- The fields of an `FPocoWorker`. `DumpCalls` is instrumentation: the number
of times the worker has invoked `UE4Dumper::DumpHierarchy`. -/
structure FPocoWorker where
  Started : Bool
  Ended : Bool
  Stopping : Bool
  Socket : FSocket
  Response : FJsonObject
  Id : FString
  DumpCalls : Nat

/-- `FPocoWorker::FPocoWorker(FSocket* InSocket)`. -/
def FPocoWorker.new (InSocket : FSocket) : FPocoWorker :=
  { Started := false
    Ended := false
    Stopping := false
    Socket := InSocket
    Response := []
    Id := ""
    DumpCalls := 0 }

/-- `FPocoWorker::Stop`. -/
def FPocoWorker.Stop (w : FPocoWorker) : FPocoWorker :=
  { w with Stopping := true }

/-- `FPocoWorker::Exit`. -/
def FPocoWorker.Exit (w : FPocoWorker) : FPocoWorker :=
  { w with Ended := true }

/-- `FPocoWorker::Start`: `FRunnableThread::Create` launches the thread that
executes `Run` and then `Exit` on this worker; the call writes none of the
worker's fields. -/
def FPocoWorker.Start (w : FPocoWorker) : FPocoWorker :=
  w

/-- `FPocoWorker::SafeToDelete`. -/
def FPocoWorker.SafeToDelete (w : FPocoWorker) : Bool :=
  w.Started && w.Ended

/-- The interface of `FJsonParser` (`Misc/Parser.h`) that `HandleRequest` uses,
over requests of type `Req`. `GetMethod Request` is `none` when
`FJsonParser::GetMethod(Request, Method)` returns false and the method name it
stores in `Method` otherwise. `GetId Request Id` is the flag returned by
`FJsonParser::GetId(Request, Id)` together with the content of the
out-parameter `Id` after the call, given its content before. -/
structure FJsonParser (Req : Type) where
  GetMethod : Req → Option FString
  GetId : Req → FString → Bool × FString

/-- `FPocoWorker::HandleRequest`. `Received` is the outcome of
`GetJsonString(Socket, Request)`: `none` when it fails, the request it read
otherwise. `Hierarchy` is the object `UE4Dumper::DumpHierarchy` returns when it
is invoked now. -/
def FPocoWorker.HandleRequest {Req : Type} (Parser : FJsonParser Req)
    (Received : Option Req) (Hierarchy : FJsonObject) (w : FPocoWorker) :
    Bool × FPocoWorker :=
  match Received with
  | none => (false, w)
  | some Request =>
    match Parser.GetMethod Request with
    | none => (false, w)
    | some Method =>
      let w1 : FPocoWorker :=
        if FString.Equals Method "GetSDKVersion" ESearchCase.IgnoreCase then
          { w with Response := FJsonObject.SetStringField w.Response "result" "1.0" }
        else if FString.Equals Method "Dump" ESearchCase.IgnoreCase then
          { w with Response := FJsonObject.SetObjectField w.Response "result" Hierarchy
                   DumpCalls := w.DumpCalls + 1 }
        else w
      let parsed := Parser.GetId Request w1.Id
      let w2 : FPocoWorker := { w1 with Id := parsed.2 }
      if !parsed.1 then (false, w2) else (true, w2)

/-- The payload loop of `FPocoWorker::SendResponse`
(`while (TotalSend < Length)`), run for at most `fuel` iterations from the
given `TotalSend`. The result is the value returned (`none` when the loop is
still running after `fuel` iterations), the final `TotalSend` and the socket. -/
def FPocoWorker.SendResponse.loop (ResponseBin : List Nat) (Stray : Int → Nat)
    (Length : Int) : Nat → FSocket → Int → Option Bool × Int × FSocket
  | 0, s, TotalSend =>
    if TotalSend < Length then (none, TotalSend, s) else (some true, TotalSend, s)
  | fuel + 1, s, TotalSend =>
    if TotalSend < Length then
      match s.Send ⟨ResponseBin, TotalSend, Stray⟩ Length with
      | (false, _, s1) => (some false, TotalSend, s1)
      | (true, SendSize, s1) =>
        FPocoWorker.SendResponse.loop ResponseBin Stray Length fuel s1
          (toInt32 (TotalSend + SendSize))
    else (some true, TotalSend, s)

/-- The framing part of `FPocoWorker::SendResponse` (from
`int32 SendSize = 0;` to the end): the length prefix is sent with one `Send`
call, the payload `ResponseBin` with the loop. -/
def FPocoWorker.SendResponse.frame (ResponseBin : List Nat) (Stray : Int → Nat)
    (fuel : Nat) (Socket : FSocket) : Option Bool × Int × FSocket :=
  let TotalSend : Int := 0
  let Length : Int := toInt32 ResponseBin.length
  match Socket.Send ⟨rawBytes Length, 0, Stray⟩ 4 with
  | (false, _, s1) => (some false, TotalSend, s1)
  | (true, _, s1) => FPocoWorker.SendResponse.loop ResponseBin Stray Length fuel s1 TotalSend

/-- The response object `FPocoWorker::SendResponse` serializes: the worker's
`Response` after the `jsonrpc` and `id` fields are set. -/
def FPocoWorker.SendResponse.build (w : FPocoWorker) : FJsonObject :=
  FJsonObject.SetStringField (FJsonObject.SetStringField w.Response "jsonrpc" "2.0") "id" w.Id

/-- What a call of `FPocoWorker::SendResponse` leaves behind: the value
returned (`none` when the payload loop is still running after `fuel`
iterations), the local `TotalSend` and the worker. -/
structure SendResult where
  Returned : Option Bool
  TotalSend : Int
  Worker : FPocoWorker

/-- `FPocoWorker::SendResponse`. `Serialize` stands for
`FJsonSerializer::Serialize` with the condensed writer followed by
`FTCHARToUTF8`: the UTF-8 bytes of the JSON text of an object. -/
def FPocoWorker.SendResponse (Serialize : FJsonObject → List Nat) (Stray : Int → Nat)
    (fuel : Nat) (w : FPocoWorker) : SendResult :=
  let Response := FPocoWorker.SendResponse.build w
  let ResponseBin := Serialize Response
  let sent := FPocoWorker.SendResponse.frame ResponseBin Stray fuel w.Socket
  { Returned := sent.1
    TotalSend := sent.2.1
    Worker := { w with Response := Response, Socket := sent.2.2 } }

/-- What the surroundings supply to one pass of the loop of
`FPocoWorker::Run`: the outcome of `GetJsonString`, the hierarchy the dumper
would return, and whether another thread calls `Stop` during the pass. -/
structure Incoming (Req : Type) where
  Received : Option Req
  Hierarchy : FJsonObject
  StopCalled : Bool

/-- One pass of the loop body of `FPocoWorker::Run`: `HandleRequest()` then
`SendResponse()`, the value of neither call being looked at; the `Sleep` that
ends the pass writes no field. -/
def FPocoWorker.Run.pass {Req : Type} (Parser : FJsonParser Req)
    (Serialize : FJsonObject → List Nat) (Stray : Int → Nat) (fuel : Nat)
    (inp : Incoming Req) (w : FPocoWorker) : SendResult :=
  let handled := FPocoWorker.HandleRequest Parser inp.Received inp.Hierarchy w
  FPocoWorker.SendResponse Serialize Stray fuel handled.2

/-- `FPocoWorker::Run` over the passes the surroundings supply. The value is
`some 0` when the loop has ended (`Stopping` was seen set) and `none` when the
worker is still inside the loop after the supplied passes, or inside a
`SendResponse` that has not returned. -/
def FPocoWorker.Run {Req : Type} (Parser : FJsonParser Req)
    (Serialize : FJsonObject → List Nat) (Stray : Int → Nat) (fuel : Nat) :
    List (Incoming Req) → FPocoWorker → Option Nat × FPocoWorker
  | [], w => if w.Stopping then (some 0, w) else (none, w)
  | inp :: rest, w =>
    if w.Stopping then (some 0, w)
    else
      let r := FPocoWorker.Run.pass Parser Serialize Stray fuel inp w
      match r.Returned with
      | none => (none, r.Worker)
      | some _ =>
        FPocoWorker.Run Parser Serialize Stray fuel rest
          (if inp.StopCalled then r.Worker.Stop else r.Worker)

/-- Modelled from the spec: `FJsonParser::GetMethod` and `FJsonParser::GetId`
(`Misc/Parser.h`, absent from the sources at hand), over requests already
decoded to a JSON object. The method name is extracted from the `method`
field and the call fails when the field is absent or not a text; the id is
extracted from the `id` field as a text (a number by its decimal digits) and
the call fails, leaving `Id` as it was, when the field is absent or has no
such text. -/
def specParser : FJsonParser FJsonObject where
  GetMethod := fun Request =>
    match FJsonObject.Field Request "method" with
    | some (FJsonValue.String Method) => some Method
    | _ => none
  GetId := fun Request Id =>
    match FJsonObject.Field Request "id" with
    | some (FJsonValue.String Text) => (true, Text)
    | some (FJsonValue.Number n) => (true, toString n)
    | _ => (false, Id)

/-- Modelled from the spec: the decoder dual to the framing of
`SendResponse` (`receive_framed`; in the program `GetJsonString`, absent from
the sources at hand): read the 4-byte length, then read exactly that many
bytes; a short read is a failure. -/
def decodeFrame (wire : List Nat) : Option (List Nat) :=
  match wire with
  | b0 :: b1 :: b2 :: b3 :: rest =>
    let Length := toInt32 (b0 + 256 * b1 + 65536 * b2 + 16777216 * b3 : Nat)
    if 0 ≤ Length ∧ Length.toNat ≤ rest.length then some (rest.take Length.toNat) else none
  | _ => none

/-- A socket on which nothing has been sent yet, with the given transport
behaviour. -/
def FSocket.fresh (Accept : Nat → Nat → Option Nat) : FSocket :=
  { Accept := Accept, Wire := [], Calls := [] }

/-- A transport that takes every byte offered. -/
def acceptAll : Nat → Nat → Option Nat :=
  fun _ n => some n

/-- A transport whose write primitive succeeds but takes one byte per call. -/
def acceptOne : Nat → Nat → Option Nat :=
  fun _ _ => some 1

/-! ## `FPocoManager` -/

/-- The fields of an `FPocoManager`: the pool holds the current state of each
worker it points to. -/
structure FPocoManager where
  WorkerPool : List FPocoWorker

/-- `FPocoManager::Tick(float DeltaTime)`; `DeltaTime` is not used by the
body. -/
def FPocoManager.Tick (m : FPocoManager) : FPocoManager :=
  { m with WorkerPool := TArray.RemoveAll (fun Worker => Worker.SafeToDelete) m.WorkerPool }

/-- `FPocoManager::HandleConnection(FSocket* InSocket)`: the worker is
constructed, added to the pool and started; the pool entry shows the worker
as `Start` leaves it. -/
def FPocoManager.HandleConnection (m : FPocoManager) (InSocket : FSocket) : FPocoManager :=
  let Worker := FPocoWorker.new InSocket
  { m with WorkerPool := m.WorkerPool ++ [Worker.Start] }

/-- Every field of the worker's `Response` is one of the three the worker
ever sets: `result`, `jsonrpc`, `id`. -/
def FPocoWorker.ResponseFieldsKnown (w : FPocoWorker) : Prop :=
  ∀ Key : FString, FJsonObject.Field w.Response Key ≠ none →
    Key = "result" ∨ Key = "jsonrpc" ∨ Key = "id"

/-- The request `{"method":"GetSDKVersion","id":"1"}`. -/
def versionRequest : FJsonObject :=
  [("method", FJsonValue.String "GetSDKVersion"), ("id", FJsonValue.String "1")]

/-- The response `{"jsonrpc":"2.0","id":"1","result":"1.0"}`. -/
def versionResponse : FJsonObject :=
  [("jsonrpc", FJsonValue.String "2.0"), ("id", FJsonValue.String "1"),
    ("result", FJsonValue.String "1.0")]

/-- The request `{"method":"getsdkVERSION","id":"1","params":[true]}`. -/
def caseVariantRequest : FJsonObject :=
  [("method", FJsonValue.String "getsdkVERSION"), ("id", FJsonValue.String "1"),
    ("params", FJsonValue.Array [FJsonValue.Boolean true])]

/-- The request `{"method":"GetSDKVersion","id":1}`, whose id is a number. -/
def numericIdRequest : FJsonObject :=
  [("method", FJsonValue.String "GetSDKVersion"), ("id", FJsonValue.Number 1)]

/-- The request `{"method":"Reboot","id":"2"}`, whose method is not known to
the dispatcher. -/
def unknownMethodRequest : FJsonObject :=
  [("method", FJsonValue.String "Reboot"), ("id", FJsonValue.String "2")]

/-- The request `{"id":"7"}`, which lacks a method field. -/
def methodlessRequest : FJsonObject :=
  [("id", FJsonValue.String "7")]

/-- A worker on an idle socket that has answered `versionRequest`: the fields
as `HandleRequest` and `SendResponse` leave them after that request. -/
def answeredWorker : FPocoWorker :=
  { FPocoWorker.new (FSocket.fresh acceptAll) with
    Response := [("result", FJsonValue.String "1.0"), ("jsonrpc", FJsonValue.String "2.0"),
      ("id", FJsonValue.String "1")]
    Id := "1" }

/-- A transport whose write primitive always succeeds, takes one byte at its
second call (the first call for the payload) and every byte offered at the
other calls. -/
def acceptOneThenAll : Nat → Nat → Option Nat :=
  fun k n => if k = 1 then some 1 else some n

/-- The request `{"method":"GetSDKVersion"}`, which lacks an id field. -/
def idlessRequest : FJsonObject :=
  [("method", FJsonValue.String "GetSDKVersion")]

/-- The 25 UTF-8 bytes of the condensed JSON text `{"jsonrpc":"2.0","id":""}`:
the response a new worker serializes when no request has set a result or an
id. -/
def envelopeBytes : List Nat :=
  [123, 34, 106, 115, 111, 110, 114, 112, 99, 34, 58, 34, 50, 46, 48, 34, 44,
    34, 105, 100, 34, 58, 34, 34, 125]

/-! ## Lemmas on the engine types -/

theorem FJsonObject.Field_SetField (o : FJsonObject) (Name Key : FString) (Value : FJsonValue) :
    FJsonObject.Field (FJsonObject.SetField o Name Value) Key =
      if Name = Key then some Value else FJsonObject.Field o Key := by
  induction o with
  | nil =>
    by_cases h : Name = Key <;> simp [FJsonObject.SetField, FJsonObject.Field, h]
  | cons e rest ih =>
    obtain ⟨k, v⟩ := e
    by_cases hk : k = Name
    · subst hk
      by_cases h : k = Key <;> simp [FJsonObject.SetField, FJsonObject.Field, h]
    · have hne : ¬ Name = k := fun h => hk h.symm
      by_cases h2 : k = Key
      · subst h2
        simp [FJsonObject.SetField, FJsonObject.Field, hk, hne]
      · simp [FJsonObject.SetField, FJsonObject.Field, hk, h2, ih]

theorem FJsonObject.Field_SetStringField (o : FJsonObject) (Name Key Value : FString) :
    FJsonObject.Field (FJsonObject.SetStringField o Name Value) Key =
      if Name = Key then some (FJsonValue.String Value) else FJsonObject.Field o Key :=
  FJsonObject.Field_SetField o Name Key _

theorem FJsonObject.Field_SetObjectField (o : FJsonObject) (Name Key : FString)
    (Value : FJsonObject) :
    FJsonObject.Field (FJsonObject.SetObjectField o Name Value) Key =
      if Name = Key then some (FJsonValue.Object Value) else FJsonObject.Field o Key :=
  FJsonObject.Field_SetField o Name Key _

theorem TArray.RemoveAll_eq_filter {α : Type} (Predicate : α → Bool) (xs : List α) :
    TArray.RemoveAll Predicate xs = xs.filter (fun x => !Predicate x) := by
  induction xs with
  | nil => rfl
  | cons x rest ih =>
    by_cases h : Predicate x = true
    · simp [TArray.RemoveAll, h, ih]
    · simp [TArray.RemoveAll, h, ih]

/-- The fields a response built by `SendResponse` holds, given the worker's
`Response` and `Id`. -/
theorem FPocoWorker.SendResponse.Field_build (w : FPocoWorker) (Key : FString) :
    FJsonObject.Field (FPocoWorker.SendResponse.build w) Key =
      if "id" = Key then some (FJsonValue.String w.Id)
      else if "jsonrpc" = Key then some (FJsonValue.String "2.0")
      else FJsonObject.Field w.Response Key := by
  simp [FPocoWorker.SendResponse.build, FJsonObject.Field_SetStringField]

/-- The worker `SendResponse` leaves holds the response it built, whatever the
serializer and the transport do. -/
theorem FPocoWorker.SendResponse_Response (Serialize : FJsonObject → List Nat)
    (Stray : Int → Nat) (fuel : Nat) (w : FPocoWorker) :
    (FPocoWorker.SendResponse Serialize Stray fuel w).Worker.Response =
      FPocoWorker.SendResponse.build w := rfl

/-- `SendResponse` leaves the worker's `Id`, flags and dumper calls alone. -/
theorem FPocoWorker.SendResponse_fields (Serialize : FJsonObject → List Nat)
    (Stray : Int → Nat) (fuel : Nat) (w : FPocoWorker) :
    (FPocoWorker.SendResponse Serialize Stray fuel w).Worker.Id = w.Id ∧
    (FPocoWorker.SendResponse Serialize Stray fuel w).Worker.Stopping = w.Stopping ∧
    (FPocoWorker.SendResponse Serialize Stray fuel w).Worker.Started = w.Started ∧
    (FPocoWorker.SendResponse Serialize Stray fuel w).Worker.Ended = w.Ended ∧
    (FPocoWorker.SendResponse Serialize Stray fuel w).Worker.DumpCalls = w.DumpCalls :=
  ⟨rfl, rfl, rfl, rfl, rfl⟩

/-- What `HandleRequest` does with a request whose method name was read: the
dispatch on the method name, then the id. -/
theorem FPocoWorker.HandleRequest_of_method {Req : Type} (Parser : FJsonParser Req)
    (w : FPocoWorker) (Request : Req) (Hierarchy : FJsonObject) (Method : FString)
    (hMethod : Parser.GetMethod Request = some Method) :
    FPocoWorker.HandleRequest Parser (some Request) Hierarchy w =
      ((Parser.GetId Request w.Id).1,
        { (if FString.Equals Method "GetSDKVersion" ESearchCase.IgnoreCase then
            { w with Response := FJsonObject.SetStringField w.Response "result" "1.0" }
          else if FString.Equals Method "Dump" ESearchCase.IgnoreCase then
            { w with Response := FJsonObject.SetObjectField w.Response "result" Hierarchy
                     DumpCalls := w.DumpCalls + 1 }
          else w : FPocoWorker) with Id := (Parser.GetId Request w.Id).2 }) := by
  unfold FPocoWorker.HandleRequest
  simp only [hMethod]
  by_cases h1 : FString.Equals Method "GetSDKVersion" ESearchCase.IgnoreCase = true
  · cases hp : (Parser.GetId Request w.Id).1 <;> simp [h1, hp]
  · by_cases h2 : FString.Equals Method "Dump" ESearchCase.IgnoreCase = true
    · cases hp : (Parser.GetId Request w.Id).1 <;> simp [h1, h2, hp]
    · cases hp : (Parser.GetId Request w.Id).1 <;> simp [h1, h2, hp]

/-- `HandleRequest` writes neither `Started` nor `Ended` nor `Stopping`. -/
theorem FPocoWorker.HandleRequest_flags {Req : Type} (Parser : FJsonParser Req)
    (Received : Option Req) (Hierarchy : FJsonObject) (w : FPocoWorker) :
    (FPocoWorker.HandleRequest Parser Received Hierarchy w).2.Started = w.Started ∧
    (FPocoWorker.HandleRequest Parser Received Hierarchy w).2.Ended = w.Ended ∧
    (FPocoWorker.HandleRequest Parser Received Hierarchy w).2.Stopping = w.Stopping := by
  cases Received with
  | none => simp [FPocoWorker.HandleRequest]
  | some Request =>
    cases hM : Parser.GetMethod Request with
    | none => simp [FPocoWorker.HandleRequest, hM]
    | some Method =>
      rw [FPocoWorker.HandleRequest_of_method Parser w Request Hierarchy Method hM]
      by_cases hv : FString.Equals Method "GetSDKVersion" ESearchCase.IgnoreCase = true
      · simp [hv]
      · by_cases hd : FString.Equals Method "Dump" ESearchCase.IgnoreCase = true
        · simp [hv, hd]
        · simp [hv, hd]

/-- No pass of the loop of `Run` writes `Started`: it has the value the worker
entered `Run` with. -/
theorem FPocoWorker.Run_Started {Req : Type} (Parser : FJsonParser Req)
    (Serialize : FJsonObject → List Nat) (Stray : Int → Nat) (fuel : Nat)
    (passes : List (Incoming Req)) :
    ∀ w : FPocoWorker,
      (FPocoWorker.Run Parser Serialize Stray fuel passes w).2.Started = w.Started := by
  induction passes with
  | nil =>
    intro w
    by_cases h : w.Stopping = true <;> simp [FPocoWorker.Run, h]
  | cons inp rest ih =>
    intro w
    have hPass : (FPocoWorker.Run.pass Parser Serialize Stray fuel inp w).Worker.Started =
        w.Started := by
      simp only [FPocoWorker.Run.pass]
      rw [(FPocoWorker.SendResponse_fields Serialize Stray fuel _).2.2.1]
      exact (FPocoWorker.HandleRequest_flags Parser inp.Received inp.Hierarchy w).1
    by_cases h : w.Stopping = true
    · simp [FPocoWorker.Run, h]
    · simp only [FPocoWorker.Run, h, Bool.false_eq_true, if_false]
      cases hR : (FPocoWorker.Run.pass Parser Serialize Stray fuel inp w).Returned with
      | none => simpa using hPass
      | some r =>
        simp only []
        rw [ih]
        by_cases hs : inp.StopCalled = true
        · simpa [hs, FPocoWorker.Stop] using hPass
        · simpa [hs] using hPass

/-! ## The worker pool -/

/-- C9. `Tick` leaves the pool equal to the old pool without the workers for
which `SafeToDelete` holds, `SafeToDelete` holding exactly when `Started` and
`Ended` are both set: the workers kept are those not reclaimable, in their
original order, none is added, and a second `Tick` changes nothing. -/
theorem FPocoManager.Tick_removes_exactly_the_reclaimable (m : FPocoManager) :
    m.Tick.WorkerPool = m.WorkerPool.filter (fun w => !w.SafeToDelete) ∧
    (∀ w : FPocoWorker, w.SafeToDelete = true ↔ (w.Started = true ∧ w.Ended = true)) ∧
    m.Tick.WorkerPool.Sublist m.WorkerPool ∧
    (∀ w : FPocoWorker, w ∈ m.Tick.WorkerPool ↔ (w ∈ m.WorkerPool ∧ w.SafeToDelete = false)) ∧
    m.Tick.Tick.WorkerPool = m.Tick.WorkerPool := by
  have hfilter : m.Tick.WorkerPool = m.WorkerPool.filter (fun w => !w.SafeToDelete) := by
    simp [FPocoManager.Tick, TArray.RemoveAll_eq_filter]
  refine ⟨hfilter, ?_, ?_, ?_, ?_⟩
  · intro w
    simp [FPocoWorker.SafeToDelete]
  · rw [hfilter]
    exact List.filter_sublist _
  · intro w
    rw [hfilter]
    simp [List.mem_filter]
  · simp [FPocoManager.Tick, TArray.RemoveAll_eq_filter, List.filter_filter]

/-- C1 (the code at the failing input). `HandleConnection` puts a new worker
in the pool and launches it with `Start`. The worker is told to stop, `Run`
returns and `Exit` is called: `Ended` is set but `Started`, which no member
function writes after the constructor, is still false, so the worker is not
safe to delete. `Tick` keeps it in the pool, and so does every further
`Tick`; the same holds whatever passes of the loop the worker made before. -/
theorem FPocoManager.Tick_keeps_finished_worker {Req : Type} (Parser : FJsonParser Req)
    (Serialize : FJsonObject → List Nat) (Stray : Int → Nat) (fuel : Nat)
    (InSocket : FSocket) :
    (FPocoManager.HandleConnection ⟨[]⟩ InSocket).WorkerPool =
      [(FPocoWorker.new InSocket).Start] ∧
    FPocoWorker.Run Parser Serialize Stray fuel [] ((FPocoWorker.new InSocket).Start).Stop =
      (some 0, ((FPocoWorker.new InSocket).Start).Stop) ∧
    (((FPocoWorker.new InSocket).Start).Stop.Exit).Started = false ∧
    (((FPocoWorker.new InSocket).Start).Stop.Exit).Ended = true ∧
    (((FPocoWorker.new InSocket).Start).Stop.Exit).SafeToDelete = false ∧
    (FPocoManager.Tick ⟨[((FPocoWorker.new InSocket).Start).Stop.Exit]⟩).WorkerPool =
      [((FPocoWorker.new InSocket).Start).Stop.Exit] ∧
    (FPocoManager.Tick (FPocoManager.Tick
        ⟨[((FPocoWorker.new InSocket).Start).Stop.Exit]⟩)).WorkerPool =
      [((FPocoWorker.new InSocket).Start).Stop.Exit] ∧
    (∀ passes : List (Incoming Req),
      ((FPocoWorker.Run Parser Serialize Stray fuel passes
        (FPocoWorker.new InSocket).Start).2.Exit).SafeToDelete = false ∧
      (FPocoManager.Tick ⟨[(FPocoWorker.Run Parser Serialize Stray fuel passes
        (FPocoWorker.new InSocket).Start).2.Exit]⟩).WorkerPool =
        [(FPocoWorker.Run Parser Serialize Stray fuel passes
          (FPocoWorker.new InSocket).Start).2.Exit]) := by
  refine ⟨rfl, ?_, rfl, rfl, rfl, ?_, ?_, ?_⟩
  · simp [FPocoWorker.Run, FPocoWorker.Stop]
  · simp [FPocoManager.Tick, TArray.RemoveAll, FPocoWorker.SafeToDelete, FPocoWorker.Exit,
      FPocoWorker.Stop, FPocoWorker.Start, FPocoWorker.new]
  · simp [FPocoManager.Tick, TArray.RemoveAll, FPocoWorker.SafeToDelete, FPocoWorker.Exit,
      FPocoWorker.Stop, FPocoWorker.Start, FPocoWorker.new]
  · intro passes
    have hStarted : (FPocoWorker.Run Parser Serialize Stray fuel passes
        (FPocoWorker.new InSocket).Start).2.Started = false := by
      rw [FPocoWorker.Run_Started]
      rfl
    have hSafe : ((FPocoWorker.Run Parser Serialize Stray fuel passes
        (FPocoWorker.new InSocket).Start).2.Exit).SafeToDelete = false := by
      simp [FPocoWorker.SafeToDelete, FPocoWorker.Exit, hStarted]
    exact ⟨hSafe, by simp [FPocoManager.Tick, TArray.RemoveAll, hSafe]⟩

/-! ## Handling a request -/

/-- The worker's `Response` holds only known fields at construction. -/
theorem FPocoWorker.ResponseFieldsKnown_new (InSocket : FSocket) :
    (FPocoWorker.new InSocket).ResponseFieldsKnown := by
  intro Key h
  simp [FPocoWorker.new, FJsonObject.Field] at h

/-- `HandleRequest` keeps the worker's `Response` within the known fields. -/
theorem FPocoWorker.ResponseFieldsKnown_HandleRequest {Req : Type} (Parser : FJsonParser Req)
    (Received : Option Req) (Hierarchy : FJsonObject) (w : FPocoWorker)
    (hw : w.ResponseFieldsKnown) :
    (FPocoWorker.HandleRequest Parser Received Hierarchy w).2.ResponseFieldsKnown := by
  cases Received with
  | none => simpa [FPocoWorker.HandleRequest] using hw
  | some Request =>
    cases hMethod : Parser.GetMethod Request with
    | none => simpa [FPocoWorker.HandleRequest, hMethod] using hw
    | some Method =>
      rw [FPocoWorker.HandleRequest_of_method Parser w Request Hierarchy Method hMethod]
      intro Key hKey
      by_cases hr : Key = "result"
      · exact Or.inl hr
      · have hr2 : ¬ "result" = Key := fun h => hr h.symm
        apply hw Key
        by_cases h1 : FString.Equals Method "GetSDKVersion" ESearchCase.IgnoreCase = true
        · simpa [h1, FJsonObject.Field_SetStringField, hr2] using hKey
        · by_cases h2 : FString.Equals Method "Dump" ESearchCase.IgnoreCase = true
          · simpa [h1, h2, FJsonObject.Field_SetObjectField, hr2] using hKey
          · simpa [h1, h2] using hKey

/-- `SendResponse` keeps the worker's `Response` within the known fields. -/
theorem FPocoWorker.ResponseFieldsKnown_SendResponse (Serialize : FJsonObject → List Nat)
    (Stray : Int → Nat) (fuel : Nat) (w : FPocoWorker) (hw : w.ResponseFieldsKnown) :
    (FPocoWorker.SendResponse Serialize Stray fuel w).Worker.ResponseFieldsKnown := by
  intro Key hKey
  rw [FPocoWorker.SendResponse_Response, FPocoWorker.SendResponse.Field_build] at hKey
  by_cases h1 : "id" = Key
  · exact Or.inr (Or.inr h1.symm)
  · by_cases h2 : "jsonrpc" = Key
    · exact Or.inr (Or.inl h2.symm)
    · simp only [h1, h2, if_false] at hKey
      exact hw Key hKey

/-- C2. For every worker state and every request whose method name equals
`GetSDKVersion` without regard to case and that carries an id, whatever else
the request holds and whatever result an earlier request left in the worker,
`HandleRequest` returns true and the response then built by `SendResponse`
has `result` equal to the string `1.0`, `jsonrpc` equal to `2.0` and the
request's id; for the request `{"method":"GetSDKVersion","id":"1"}` the
response is the object `{"jsonrpc":"2.0","id":"1","result":"1.0"}`. -/
theorem FPocoWorker.GetSDKVersion_response {Req : Type} (Parser : FJsonParser Req)
    (Serialize : FJsonObject → List Nat) (Stray : Int → Nat) (fuel : Nat)
    (w : FPocoWorker) (Request : Req) (Hierarchy : FJsonObject) (Method Id : FString)
    (hMethod : Parser.GetMethod Request = some Method)
    (hName : FString.Equals Method "GetSDKVersion" ESearchCase.IgnoreCase = true)
    (hId : Parser.GetId Request w.Id = (true, Id)) :
    (FPocoWorker.HandleRequest Parser (some Request) Hierarchy w).1 = true ∧
    FJsonObject.Field (FPocoWorker.SendResponse Serialize Stray fuel
        (FPocoWorker.HandleRequest Parser (some Request) Hierarchy w).2).Worker.Response
      "result" = some (FJsonValue.String "1.0") ∧
    FJsonObject.Field (FPocoWorker.SendResponse Serialize Stray fuel
        (FPocoWorker.HandleRequest Parser (some Request) Hierarchy w).2).Worker.Response
      "jsonrpc" = some (FJsonValue.String "2.0") ∧
    FJsonObject.Field (FPocoWorker.SendResponse Serialize Stray fuel
        (FPocoWorker.HandleRequest Parser (some Request) Hierarchy w).2).Worker.Response
      "id" = some (FJsonValue.String Id) ∧
    (∀ w0 : FPocoWorker, w0.ResponseFieldsKnown →
      (FPocoWorker.HandleRequest specParser (some versionRequest) Hierarchy w0).1 = true ∧
      FJsonObject.Same
        (FPocoWorker.SendResponse Serialize Stray fuel
          (FPocoWorker.HandleRequest specParser (some versionRequest) Hierarchy w0).2).Worker.Response
        versionResponse) := by
  rw [FPocoWorker.HandleRequest_of_method Parser w Request Hierarchy Method hMethod]
  simp only [FPocoWorker.SendResponse_Response, FPocoWorker.SendResponse.Field_build, hId, hName]
  refine ⟨trivial, ?_, ?_, ?_, ?_⟩
  · simp [FJsonObject.Field_SetStringField]
  · simp
  · simp
  · intro w0 hw0
    have hm : specParser.GetMethod versionRequest = some "GetSDKVersion" := by
      simp [specParser, versionRequest, FJsonObject.Field]
    have hi : specParser.GetId versionRequest w0.Id = (true, "1") := by
      simp [specParser, versionRequest, FJsonObject.Field]
    have hn : FString.Equals "GetSDKVersion" "GetSDKVersion" ESearchCase.IgnoreCase = true := by
      simp [FString.Equals]
    rw [FPocoWorker.HandleRequest_of_method specParser w0 versionRequest Hierarchy _ hm]
    refine ⟨by simp [hi], ?_⟩
    intro Key
    rw [FPocoWorker.SendResponse.Field_build]
    simp only [hi, hn, if_true]
    by_cases h1 : "id" = Key
    · subst h1
      simp [versionResponse, FJsonObject.Field]
    · by_cases h2 : "jsonrpc" = Key
      · subst h2
        simp [versionResponse, FJsonObject.Field]
      · by_cases h3 : "result" = Key
        · subst h3
          simp [versionResponse, FJsonObject.Field, FJsonObject.Field_SetStringField]
        · have hnone : FJsonObject.Field w0.Response Key = none := by
            by_contra hne
            rcases hw0 Key hne with h | h | h
            · exact h3 h.symm
            · exact h2 h.symm
            · exact h1 h.symm
          simp [versionResponse, FJsonObject.Field, FJsonObject.Field_SetStringField, h1, h2, h3,
            hnone]

/-- C2, at a concrete input: the method name in another case, with params. -/
theorem FPocoWorker.GetSDKVersion_response_witness :
    specParser.GetMethod caseVariantRequest = some "getsdkVERSION" ∧
    FString.Equals "getsdkVERSION" "GetSDKVersion" ESearchCase.IgnoreCase = true ∧
    specParser.GetId caseVariantRequest answeredWorker.Id = (true, "1") ∧
    (FPocoWorker.HandleRequest specParser (some caseVariantRequest) [] answeredWorker).1 = true ∧
    FJsonObject.Field (FPocoWorker.SendResponse (fun _ => []) (fun _ => 0) 0
        (FPocoWorker.HandleRequest specParser (some caseVariantRequest) []
          answeredWorker).2).Worker.Response
      "result" = some (FJsonValue.String "1.0") :=
  have h1 : specParser.GetMethod caseVariantRequest = some "getsdkVERSION" := by decide
  have h2 : FString.Equals "getsdkVERSION" "GetSDKVersion" ESearchCase.IgnoreCase = true := by
    decide
  have h3 : specParser.GetId caseVariantRequest answeredWorker.Id = (true, "1") := by decide
  have h := FPocoWorker.GetSDKVersion_response specParser (fun _ => []) (fun _ => 0) 0
    answeredWorker caseVariantRequest [] "getsdkVERSION" "1" h1 h2 h3
  ⟨h1, h2, h3, h.1, h.2.1⟩

/-- C3 (counterexample). The request `{"method":"GetSDKVersion","id":1}` is
valid and its id is the number 1; the id of the response built for it is the
string `1`, not the number. -/
theorem FPocoWorker.numeric_id_comes_back_as_string :
    (FPocoWorker.HandleRequest specParser (some numericIdRequest) []
      (FPocoWorker.new (FSocket.fresh acceptAll))).1 = true ∧
    FJsonObject.Field numericIdRequest "id" = some (FJsonValue.Number 1) ∧
    FJsonObject.Field (FPocoWorker.SendResponse.build
        (FPocoWorker.HandleRequest specParser (some numericIdRequest) []
          (FPocoWorker.new (FSocket.fresh acceptAll))).2) "id" =
      some (FJsonValue.String "1") ∧
    FJsonObject.Field (FPocoWorker.SendResponse.build
        (FPocoWorker.HandleRequest specParser (some numericIdRequest) []
          (FPocoWorker.new (FSocket.fresh acceptAll))).2) "id" ≠
      FJsonObject.Field numericIdRequest "id" := by
  refine ⟨rfl, rfl, rfl, ?_⟩
  intro h
  have h2 : FJsonObject.Field (FPocoWorker.SendResponse.build
        (FPocoWorker.HandleRequest specParser (some numericIdRequest) []
          (FPocoWorker.new (FSocket.fresh acceptAll))).2) "id" =
      some (FJsonValue.String "1") := rfl
  have h3 : FJsonObject.Field numericIdRequest "id" = some (FJsonValue.Number 1) := rfl
  rw [h2, h3] at h
  cases h

/-- C3 (amended). For every valid request (method present, id present) the id
field of the response that `SendResponse` builds after `HandleRequest` is a
JSON string, holding the id text read from the request; a request id that is
itself a JSON string is thereby echoed exactly. -/
theorem FPocoWorker.response_id_is_id_text {Req : Type} (Parser : FJsonParser Req)
    (Serialize : FJsonObject → List Nat) (Stray : Int → Nat) (fuel : Nat)
    (w : FPocoWorker) (Request : Req) (Hierarchy : FJsonObject) (Method Id : FString)
    (hMethod : Parser.GetMethod Request = some Method)
    (hId : Parser.GetId Request w.Id = (true, Id)) :
    (FPocoWorker.HandleRequest Parser (some Request) Hierarchy w).1 = true ∧
    FJsonObject.Field (FPocoWorker.SendResponse Serialize Stray fuel
        (FPocoWorker.HandleRequest Parser (some Request) Hierarchy w).2).Worker.Response
      "id" = some (FJsonValue.String Id) ∧
    (∀ (w0 : FPocoWorker) (Decoded : FJsonObject) (Name I : FString),
      FJsonObject.Field Decoded "method" = some (FJsonValue.String Name) →
      FJsonObject.Field Decoded "id" = some (FJsonValue.String I) →
      (FPocoWorker.HandleRequest specParser (some Decoded) Hierarchy w0).1 = true ∧
      FJsonObject.Field (FPocoWorker.SendResponse Serialize Stray fuel
          (FPocoWorker.HandleRequest specParser (some Decoded) Hierarchy w0).2).Worker.Response
        "id" = FJsonObject.Field Decoded "id") := by
  rw [FPocoWorker.HandleRequest_of_method Parser w Request Hierarchy Method hMethod]
  simp only [FPocoWorker.SendResponse_Response, FPocoWorker.SendResponse.Field_build, hId]
  refine ⟨trivial, by simp, ?_⟩
  intro w0 Decoded Name I hName hI
  have hm : specParser.GetMethod Decoded = some Name := by
    simp [specParser, hName]
  have hi : specParser.GetId Decoded w0.Id = (true, I) := by
    simp [specParser, hI]
  rw [FPocoWorker.HandleRequest_of_method specParser w0 Decoded Hierarchy Name hm]
  simp [hi, hI]

/-- C3 (amended), at a concrete input. -/
theorem FPocoWorker.response_id_is_id_text_witness :
    specParser.GetMethod numericIdRequest = some "GetSDKVersion" ∧
    specParser.GetId numericIdRequest answeredWorker.Id = (true, "1") ∧
    FJsonObject.Field (FPocoWorker.SendResponse (fun _ => []) (fun _ => 0) 0
        (FPocoWorker.HandleRequest specParser (some numericIdRequest) []
          answeredWorker).2).Worker.Response
      "id" = some (FJsonValue.String "1") :=
  have h1 : specParser.GetMethod numericIdRequest = some "GetSDKVersion" := by decide
  have h2 : specParser.GetId numericIdRequest answeredWorker.Id = (true, "1") := by decide
  ⟨h1, h2, (FPocoWorker.response_id_is_id_text specParser (fun _ => []) (fun _ => 0) 0
    answeredWorker numericIdRequest [] "GetSDKVersion" "1" h1 h2).2.1⟩

/-- C7 (counterexample). A worker answers `{"method":"GetSDKVersion","id":"1"}`
and is then in the state `answeredWorker`; the request
`{"method":"Reboot","id":"2"}` that follows has an id and an unknown method,
and the response built for it carries the result `1.0` of the earlier
request. -/
theorem FPocoWorker.unknown_method_resends_earlier_result :
    FPocoWorker.SendResponse.build
        (FPocoWorker.HandleRequest specParser (some versionRequest) []
          (FPocoWorker.new (FSocket.fresh acceptAll))).2 = answeredWorker.Response ∧
    (FPocoWorker.HandleRequest specParser (some versionRequest) []
          (FPocoWorker.new (FSocket.fresh acceptAll))).2.Id = answeredWorker.Id ∧
    specParser.GetMethod unknownMethodRequest = some "Reboot" ∧
    FString.Equals "Reboot" "GetSDKVersion" ESearchCase.IgnoreCase = false ∧
    FString.Equals "Reboot" "Dump" ESearchCase.IgnoreCase = false ∧
    (FPocoWorker.HandleRequest specParser (some unknownMethodRequest) [] answeredWorker).1 = true ∧
    FJsonObject.Field (FPocoWorker.SendResponse.build
        (FPocoWorker.HandleRequest specParser (some unknownMethodRequest) []
          answeredWorker).2) "result" = some (FJsonValue.String "1.0") ∧
    FJsonObject.Field (FPocoWorker.SendResponse.build
        (FPocoWorker.HandleRequest specParser (some unknownMethodRequest) []
          answeredWorker).2) "id" = some (FJsonValue.String "2") := by
  refine ⟨rfl, rfl, rfl, by decide, by decide, rfl, rfl, rfl⟩

/-- C7 (amended). For every worker whose `Response` holds no field besides
`jsonrpc` and `id` (as after construction, and as long as no `GetSDKVersion`
or `Dump` request was handled) and every request with an id whose method name
is neither `GetSDKVersion` nor `Dump` without regard to case, the response
built for it contains the envelope fields `jsonrpc` and `id` and no other
field: no `result`. -/
theorem FPocoWorker.unknown_method_response {Req : Type} (Parser : FJsonParser Req)
    (Serialize : FJsonObject → List Nat) (Stray : Int → Nat) (fuel : Nat)
    (w : FPocoWorker) (Request : Req) (Hierarchy : FJsonObject) (Method Id : FString)
    (hMethod : Parser.GetMethod Request = some Method)
    (hVersion : FString.Equals Method "GetSDKVersion" ESearchCase.IgnoreCase = false)
    (hDump : FString.Equals Method "Dump" ESearchCase.IgnoreCase = false)
    (hId : Parser.GetId Request w.Id = (true, Id))
    (hEnvelope : ∀ Key : FString, FJsonObject.Field w.Response Key ≠ none →
      Key = "jsonrpc" ∨ Key = "id") :
    (FPocoWorker.HandleRequest Parser (some Request) Hierarchy w).1 = true ∧
    FJsonObject.Field (FPocoWorker.SendResponse Serialize Stray fuel
        (FPocoWorker.HandleRequest Parser (some Request) Hierarchy w).2).Worker.Response
      "jsonrpc" = some (FJsonValue.String "2.0") ∧
    FJsonObject.Field (FPocoWorker.SendResponse Serialize Stray fuel
        (FPocoWorker.HandleRequest Parser (some Request) Hierarchy w).2).Worker.Response
      "id" = some (FJsonValue.String Id) ∧
    FJsonObject.Field (FPocoWorker.SendResponse Serialize Stray fuel
        (FPocoWorker.HandleRequest Parser (some Request) Hierarchy w).2).Worker.Response
      "result" = none ∧
    (∀ Key : FString,
      FJsonObject.Field (FPocoWorker.SendResponse Serialize Stray fuel
          (FPocoWorker.HandleRequest Parser (some Request) Hierarchy w).2).Worker.Response
        Key ≠ none ↔ (Key = "jsonrpc" ∨ Key = "id")) := by
  rw [FPocoWorker.HandleRequest_of_method Parser w Request Hierarchy Method hMethod]
  simp only [FPocoWorker.SendResponse_Response, FPocoWorker.SendResponse.Field_build, hId,
    hVersion, hDump]
  have hResult : FJsonObject.Field w.Response "result" = none := by
    by_contra hne
    rcases hEnvelope "result" hne with h | h <;> simp at h
  refine ⟨trivial, by simp, by simp, by simp [hResult], ?_⟩
  intro Key
  by_cases h1 : "id" = Key
  · subst h1
    simp
  · by_cases h2 : "jsonrpc" = Key
    · subst h2
      simp
    · have h1' : ¬ Key = "id" := fun h => h1 h.symm
      have h2' : ¬ Key = "jsonrpc" := fun h => h2 h.symm
      simp only [h1, h2, h1', h2', if_false, Bool.false_eq_true, or_self, iff_false, not_not]
      by_contra hne
      rcases hEnvelope Key hne with h | h
      · exact h2' h
      · exact h1' h

/-- C7 (amended), at a concrete input: the unknown method on a new worker. -/
theorem FPocoWorker.unknown_method_response_witness :
    specParser.GetMethod unknownMethodRequest = some "Reboot" ∧
    FString.Equals "Reboot" "GetSDKVersion" ESearchCase.IgnoreCase = false ∧
    FString.Equals "Reboot" "Dump" ESearchCase.IgnoreCase = false ∧
    specParser.GetId unknownMethodRequest (FPocoWorker.new (FSocket.fresh acceptAll)).Id =
      (true, "2") ∧
    FJsonObject.Field (FPocoWorker.SendResponse (fun _ => []) (fun _ => 0) 0
        (FPocoWorker.HandleRequest specParser (some unknownMethodRequest) []
          (FPocoWorker.new (FSocket.fresh acceptAll))).2).Worker.Response
      "result" = none :=
  have h1 : specParser.GetMethod unknownMethodRequest = some "Reboot" := by decide
  have h2 : FString.Equals "Reboot" "GetSDKVersion" ESearchCase.IgnoreCase = false := by decide
  have h3 : FString.Equals "Reboot" "Dump" ESearchCase.IgnoreCase = false := by decide
  have h4 : specParser.GetId unknownMethodRequest (FPocoWorker.new (FSocket.fresh acceptAll)).Id =
      (true, "2") := by decide
  have h5 : ∀ Key : FString,
      FJsonObject.Field (FPocoWorker.new (FSocket.fresh acceptAll)).Response Key ≠ none →
      Key = "jsonrpc" ∨ Key = "id" := by
    intro Key h
    simp [FPocoWorker.new, FJsonObject.Field] at h
  ⟨h1, h2, h3, h4, (FPocoWorker.unknown_method_response specParser (fun _ => []) (fun _ => 0) 0
    (FPocoWorker.new (FSocket.fresh acceptAll)) unknownMethodRequest [] "Reboot" "2"
    h1 h2 h3 h4 h5).2.2.2.1⟩

/-- C8. For every worker state and every request for which no method name can
be read, `HandleRequest` returns false and leaves every field of the worker
as it was (the `result` field of `Response`, `Id`, the `Stopping`, `Started`
and `Ended` flags; the dumper is not invoked), so the loop condition of `Run`
is as before; and a request handled by the next pass of the loop gets the
same `HandleRequest` value and leaves the same response object, `Id`, flags
and dumper calls as it would if the pass with the malformed request had not
taken place. -/
theorem FPocoWorker.malformed_request_changes_nothing {Req : Type} (Parser : FJsonParser Req)
    (Serialize : FJsonObject → List Nat) (Stray : Int → Nat) (fuel : Nat)
    (w : FPocoWorker) (Request : Req) (Hierarchy : FJsonObject)
    (hMethod : Parser.GetMethod Request = none) :
    FPocoWorker.HandleRequest Parser (some Request) Hierarchy w = (false, w) ∧
    (FPocoWorker.HandleRequest Parser (some Request) Hierarchy w).2.DumpCalls = w.DumpCalls ∧
    (FPocoWorker.HandleRequest Parser (some Request) Hierarchy w).2.Stopping = w.Stopping ∧
    (FPocoWorker.Run.pass Parser Serialize Stray fuel ⟨some Request, Hierarchy, false⟩
      w).Worker.Stopping = w.Stopping ∧
    (∀ (next : Incoming Req) (fuel2 : Nat),
      (FPocoWorker.HandleRequest Parser next.Received next.Hierarchy
          (FPocoWorker.Run.pass Parser Serialize Stray fuel ⟨some Request, Hierarchy, false⟩
            w).Worker).1 =
        (FPocoWorker.HandleRequest Parser next.Received next.Hierarchy w).1 ∧
      FJsonObject.Same
        (FPocoWorker.Run.pass Parser Serialize Stray fuel2 next
          (FPocoWorker.Run.pass Parser Serialize Stray fuel ⟨some Request, Hierarchy, false⟩
            w).Worker).Worker.Response
        (FPocoWorker.Run.pass Parser Serialize Stray fuel2 next w).Worker.Response ∧
      (FPocoWorker.Run.pass Parser Serialize Stray fuel2 next
          (FPocoWorker.Run.pass Parser Serialize Stray fuel ⟨some Request, Hierarchy, false⟩
            w).Worker).Worker.Id =
        (FPocoWorker.Run.pass Parser Serialize Stray fuel2 next w).Worker.Id ∧
      (FPocoWorker.Run.pass Parser Serialize Stray fuel2 next
          (FPocoWorker.Run.pass Parser Serialize Stray fuel ⟨some Request, Hierarchy, false⟩
            w).Worker).Worker.DumpCalls =
        (FPocoWorker.Run.pass Parser Serialize Stray fuel2 next w).Worker.DumpCalls ∧
      (FPocoWorker.Run.pass Parser Serialize Stray fuel2 next
          (FPocoWorker.Run.pass Parser Serialize Stray fuel ⟨some Request, Hierarchy, false⟩
            w).Worker).Worker.Stopping =
        (FPocoWorker.Run.pass Parser Serialize Stray fuel2 next w).Worker.Stopping) := by
  have hHandle : FPocoWorker.HandleRequest Parser (some Request) Hierarchy w = (false, w) := by
    simp [FPocoWorker.HandleRequest, hMethod]
  refine ⟨hHandle, by rw [hHandle], by rw [hHandle], ?_, ?_⟩
  · simp [FPocoWorker.Run.pass, hHandle, FPocoWorker.SendResponse]
  · intro next fuel2
    obtain ⟨Received, Hierarchy2, StopCalled⟩ := next
    simp only [FPocoWorker.Run.pass, hHandle]
    cases Received with
    | none =>
      refine ⟨by simp [FPocoWorker.HandleRequest], ?_, ?_, ?_, ?_⟩
      · intro Key
        simp only [FPocoWorker.HandleRequest, FPocoWorker.SendResponse_Response,
          FPocoWorker.SendResponse.Field_build]
        simp only [FPocoWorker.SendResponse, FPocoWorker.SendResponse.Field_build]
        split <;> simp_all
      all_goals simp [FPocoWorker.HandleRequest, FPocoWorker.SendResponse]
    | some Request2 =>
      cases hM : Parser.GetMethod Request2 with
      | none =>
        refine ⟨by simp [FPocoWorker.HandleRequest, hM], ?_, ?_, ?_, ?_⟩
        · intro Key
          simp only [FPocoWorker.HandleRequest, hM, FPocoWorker.SendResponse_Response,
            FPocoWorker.SendResponse.Field_build]
          simp only [FPocoWorker.SendResponse, FPocoWorker.SendResponse.Field_build]
          split <;> simp_all
        all_goals simp [FPocoWorker.HandleRequest, hM, FPocoWorker.SendResponse]
      | some Method2 =>
        rw [FPocoWorker.HandleRequest_of_method Parser w Request2 Hierarchy2 Method2 hM]
        rw [FPocoWorker.HandleRequest_of_method Parser _ Request2 Hierarchy2 Method2 hM]
        have hSame : (FPocoWorker.SendResponse Serialize Stray fuel w).Worker.Id = w.Id := rfl
        refine ⟨by simp [FPocoWorker.SendResponse], ?_, ?_, ?_, ?_⟩
        · intro Key
          simp only [FPocoWorker.SendResponse_Response, FPocoWorker.SendResponse.Field_build]
          by_cases h1 : "id" = Key
          · simp [h1, hSame]
          · by_cases h2 : "jsonrpc" = Key
            · simp [h1, h2]
            · simp only [h1, h2, if_false]
              by_cases hv : FString.Equals Method2 "GetSDKVersion" ESearchCase.IgnoreCase = true
              · simp [hv, FJsonObject.Field_SetStringField, FPocoWorker.SendResponse,
                  FPocoWorker.SendResponse.Field_build, h1, h2]
              · by_cases hd : FString.Equals Method2 "Dump" ESearchCase.IgnoreCase = true
                · simp [hv, hd, FJsonObject.Field_SetObjectField, FPocoWorker.SendResponse,
                    FPocoWorker.SendResponse.Field_build, h1, h2]
                · simp [hv, hd, FPocoWorker.SendResponse,
                    FPocoWorker.SendResponse.Field_build, h1, h2]
        · simp [FPocoWorker.SendResponse]
        · by_cases hv : FString.Equals Method2 "GetSDKVersion" ESearchCase.IgnoreCase = true
          · simp [hv, FPocoWorker.SendResponse]
          · by_cases hd : FString.Equals Method2 "Dump" ESearchCase.IgnoreCase = true
            · simp [hv, hd, FPocoWorker.SendResponse]
            · simp [hv, hd, FPocoWorker.SendResponse]
        · by_cases hv : FString.Equals Method2 "GetSDKVersion" ESearchCase.IgnoreCase = true
          · simp [hv, FPocoWorker.SendResponse]
          · by_cases hd : FString.Equals Method2 "Dump" ESearchCase.IgnoreCase = true
            · simp [hv, hd, FPocoWorker.SendResponse]
            · simp [hv, hd, FPocoWorker.SendResponse]

/-- C8, at a concrete input: a request without a method field. -/
theorem FPocoWorker.malformed_request_changes_nothing_witness :
    specParser.GetMethod methodlessRequest = none ∧
    FPocoWorker.HandleRequest specParser (some methodlessRequest) [] answeredWorker =
      (false, answeredWorker) :=
  have h : specParser.GetMethod methodlessRequest = none := by decide
  ⟨h, (FPocoWorker.malformed_request_changes_nothing specParser (fun _ => []) (fun _ => 0) 0
    answeredWorker methodlessRequest [] h).1⟩

/-! ## Framing -/

theorem toInt32_of_small (n : Nat) (h : n < 2147483648) : toInt32 (n : Int) = (n : Int) := by
  unfold toInt32
  omega

theorem BytePtr.read_in_bounds (P : List Nat) (Stray : Int → Nat) (j : Nat) (h : j < P.length) :
    BytePtr.read ⟨P, 0, Stray⟩ j = P.get ⟨j, h⟩ := by
  have h1 : (0 : Int) ≤ 0 + (j : Int) ∧ (0 : Int) + (j : Int) < (P.length : Int) := by omega
  simp only [BytePtr.read, h1, and_self, if_true]
  simp [List.getElem?_eq_getElem h]

theorem BytePtr.read_whole (P : List Nat) (Stray : Int → Nat) :
    (List.range P.length).map (BytePtr.read ⟨P, 0, Stray⟩) = P := by
  apply List.ext_get
  · simp
  · intro j h1 h2
    simp only [List.get_eq_getElem, List.getElem_map, List.getElem_range]
    rw [BytePtr.read_in_bounds P Stray j h2]
    simp

theorem FSocket.Send_of_accept (s : FSocket) (Data : BytePtr) (Count : Int) (m : Nat)
    (h : s.Accept s.Calls.length Count.toNat = some m) :
    s.Send Data Count =
      (true, ((min m Count.toNat : Nat) : Int),
        { s with Wire := s.Wire ++ (List.range (min m Count.toNat)).map Data.read,
                 Calls := s.Calls ++ [⟨Data.Offset, Data.Buffer.length, Count⟩] }) := by
  simp [FSocket.Send, h]

theorem FPocoWorker.SendResponse.loop_done (ResponseBin : List Nat) (Stray : Int → Nat)
    (Length : Int) (fuel : Nat) (s : FSocket) (TotalSend : Int) (h : ¬ TotalSend < Length) :
    FPocoWorker.SendResponse.loop ResponseBin Stray Length fuel s TotalSend =
      (some true, TotalSend, s) := by
  cases fuel <;> simp [FPocoWorker.SendResponse.loop, h]

/-- The payload loop only adds bytes to the wire. -/
theorem FPocoWorker.SendResponse.loop_extends_wire (ResponseBin : List Nat) (Stray : Int → Nat)
    (Length : Int) (fuel : Nat) :
    ∀ (s : FSocket) (TotalSend : Int), ∃ rest : List Nat,
      (FPocoWorker.SendResponse.loop ResponseBin Stray Length fuel s TotalSend).2.2.Wire =
        s.Wire ++ rest := by
  induction fuel with
  | zero =>
    intro s TotalSend
    refine ⟨[], ?_⟩
    by_cases h : TotalSend < Length <;> simp [FPocoWorker.SendResponse.loop, h]
  | succ fuel ih =>
    intro s TotalSend
    by_cases h : TotalSend < Length
    · cases hA : s.Accept s.Calls.length Length.toNat with
      | none =>
        refine ⟨[], ?_⟩
        simp [FPocoWorker.SendResponse.loop, h, FSocket.Send, hA]
      | some m =>
        simp only [FPocoWorker.SendResponse.loop, h, if_true,
          FSocket.Send_of_accept s _ Length m hA]
        obtain ⟨rest, hrest⟩ := ih
          { s with Wire := s.Wire ++ (List.range (min m Length.toNat)).map
                     (BytePtr.read ⟨ResponseBin, TotalSend, Stray⟩),
                   Calls := s.Calls ++ [⟨TotalSend, ResponseBin.length, Length⟩] }
          (toInt32 (TotalSend + ((min m Length.toNat : Nat) : Int)))
        refine ⟨(List.range (min m Length.toNat)).map
          (BytePtr.read ⟨ResponseBin, TotalSend, Stray⟩) ++ rest, ?_⟩
        rw [hrest]
        simp
    · refine ⟨[], ?_⟩
      simp [FPocoWorker.SendResponse.loop, h]

/-- When the transport takes the 4 bytes of the length prefix, the wire grows by
the prefix and by what the payload loop sends. -/
theorem FPocoWorker.SendResponse.frame_wire_start (P : List Nat) (Stray : Int → Nat)
    (fuel : Nat) (s : FSocket) (h : s.Accept s.Calls.length 4 = some 4) :
    ∃ rest : List Nat,
      (FPocoWorker.SendResponse.frame P Stray fuel s).2.2.Wire =
        s.Wire ++ rawBytes (toInt32 (P.length : Int)) ++ rest := by
  have key : ∀ s1 : FSocket, s1.Wire = s.Wire ++ rawBytes (toInt32 (P.length : Int)) →
      ∃ rest : List Nat,
        (FPocoWorker.SendResponse.loop P Stray (toInt32 (P.length : Int)) fuel s1 0).2.2.Wire =
          s.Wire ++ rawBytes (toInt32 (P.length : Int)) ++ rest := by
    intro s1 h1
    obtain ⟨rest, hrest⟩ := FPocoWorker.SendResponse.loop_extends_wire P Stray
      (toInt32 (P.length : Int)) fuel s1 0
    exact ⟨rest, by rw [hrest, h1]⟩
  simp only [FPocoWorker.SendResponse.frame]
  rw [FSocket.Send_of_accept s _ 4 4 (by simpa using h)]
  refine key _ ?_
  have h4 : min 4 (Int.toNat 4) = 4 := by decide
  have hPrefix : (List.range 4).map
      (BytePtr.read ⟨rawBytes (toInt32 (P.length : Int)), 0, Stray⟩) =
      rawBytes (toInt32 (P.length : Int)) :=
    BytePtr.read_whole (rawBytes (toInt32 (P.length : Int))) Stray
  simp only [h4, hPrefix]

/-- The frame `SendResponse` puts on a transport that takes every byte
offered. -/
theorem FPocoWorker.SendResponse.frame_acceptAll (P : List Nat) (Stray : Int → Nat)
    (fuel : Nat) (s : FSocket) (hLength : P.length < 2147483648)
    (hAccept : ∀ k n : Nat, s.Accept k n = some n) (hFuel : 0 < fuel) :
    (FPocoWorker.SendResponse.frame P Stray fuel s).1 = some true ∧
    (FPocoWorker.SendResponse.frame P Stray fuel s).2.1 = (P.length : Int) ∧
    (FPocoWorker.SendResponse.frame P Stray fuel s).2.2.Wire =
      s.Wire ++ (rawBytes (P.length : Int) ++ P) := by
  obtain ⟨fuel, rfl⟩ : ∃ f, fuel = f + 1 := ⟨fuel - 1, by omega⟩
  have hL : toInt32 (P.length : Int) = (P.length : Int) := toInt32_of_small _ hLength
  have hPrefix : (List.range 4).map (BytePtr.read ⟨rawBytes (P.length : Int), 0, Stray⟩) =
      rawBytes (P.length : Int) :=
    BytePtr.read_whole (rawBytes (P.length : Int)) Stray
  unfold FPocoWorker.SendResponse.frame
  simp only [hL]
  rw [FSocket.Send_of_accept s _ 4 4 (by simpa using hAccept s.Calls.length 4)]
  have h4 : min 4 (Int.toNat 4) = 4 := by decide
  simp only [h4, hPrefix]
  by_cases hEmpty : P.length = 0
  · have hP : P = [] := List.length_eq_zero.mp hEmpty
    subst hP
    simp [FPocoWorker.SendResponse.loop]
  · have hpos : (0 : Int) < (P.length : Int) := by omega
    simp only [FPocoWorker.SendResponse.loop, hpos, if_true]
    rw [FSocket.Send_of_accept _ _ (P.length : Int) P.length (by simpa using hAccept _ P.length)]
    have hmin : min P.length (Int.toNat (P.length : Int)) = P.length := by simp
    simp only [hmin, zero_add, hL, BytePtr.read_whole]
    rw [FPocoWorker.SendResponse.loop_done _ _ _ _ _ _ (by omega)]
    simp

/-- The payload loop on a transport that takes one byte per call: from any
offset inside the payload it delivers the rest of the payload and ends with
`TotalSend` equal to the length. -/
theorem FPocoWorker.SendResponse.loop_acceptOne (P : List Nat) (Stray : Int → Nat)
    (hLength : P.length < 2147483648) (fuel : Nat) :
    ∀ (s : FSocket) (t : Nat), (∀ k n : Nat, s.Accept k n = some 1) → t ≤ P.length →
      P.length - t ≤ fuel →
      (FPocoWorker.SendResponse.loop P Stray (P.length : Int) fuel s (t : Int)).1 = some true ∧
      (FPocoWorker.SendResponse.loop P Stray (P.length : Int) fuel s (t : Int)).2.1 =
        (P.length : Int) ∧
      (FPocoWorker.SendResponse.loop P Stray (P.length : Int) fuel s (t : Int)).2.2.Wire =
        s.Wire ++ P.drop t := by
  induction fuel with
  | zero =>
    intro s t _ ht hfuel
    have hEq : t = P.length := by omega
    subst hEq
    simp [FPocoWorker.SendResponse.loop]
  | succ fuel ih =>
    intro s t hAccept ht hfuel
    by_cases hlt : t < P.length
    · have hlt' : (t : Int) < (P.length : Int) := by omega
      have hmin : min 1 (Int.toNat (P.length : Int)) = 1 := by
        simp only [Int.toNat_ofNat]
        omega
      have hread : BytePtr.read ⟨P, (t : Int), Stray⟩ 0 = P.get ⟨t, hlt⟩ := by
        have hb : (0 : Int) ≤ (t : Int) + ((0 : Nat) : Int) ∧
            (t : Int) + ((0 : Nat) : Int) < (P.length : Int) := by omega
        simp only [BytePtr.read, hb, and_self, if_true]
        simp [List.getElem?_eq_getElem hlt]
      have hnext : toInt32 ((t : Int) + ((1 : Nat) : Int)) = ((t + 1 : Nat) : Int) := by
        have := toInt32_of_small (t + 1) (by omega)
        simpa using this
      simp only [FPocoWorker.SendResponse.loop, hlt', if_true]
      rw [FSocket.Send_of_accept s _ (P.length : Int) 1 (hAccept _ _)]
      simp only [hmin, hnext]
      obtain ⟨h1, h2, h3⟩ := ih
        { s with Wire := s.Wire ++ (List.range 1).map (BytePtr.read ⟨P, (t : Int), Stray⟩),
                 Calls := s.Calls ++ [⟨(t : Int), P.length, (P.length : Int)⟩] }
        (t + 1) hAccept (by omega) (by omega)
      refine ⟨h1, h2, ?_⟩
      have hr : List.range 1 = [0] := rfl
      rw [h3, List.drop_eq_getElem_cons hlt]
      simp [hr, hread]
    · have hEq : t = P.length := by omega
      subst hEq
      simp [FPocoWorker.SendResponse.loop]

/-- The framing on a transport that takes one byte per call, for every
payload: the call returns true and the whole payload is delivered, behind the
first byte only of the length prefix. -/
theorem FPocoWorker.SendResponse.frame_acceptOne (P : List Nat) (Stray : Int → Nat)
    (fuel : Nat) (s : FSocket) (hLength : P.length < 2147483648)
    (hAccept : ∀ k n : Nat, s.Accept k n = some 1) (hFuel : P.length ≤ fuel) :
    (FPocoWorker.SendResponse.frame P Stray fuel s).1 = some true ∧
    (FPocoWorker.SendResponse.frame P Stray fuel s).2.1 = (P.length : Int) ∧
    (FPocoWorker.SendResponse.frame P Stray fuel s).2.2.Wire =
      s.Wire ++ ((rawBytes (P.length : Int)).take 1 ++ P) := by
  have hL : toInt32 (P.length : Int) = (P.length : Int) := toInt32_of_small _ hLength
  simp only [FPocoWorker.SendResponse.frame, hL]
  rw [FSocket.Send_of_accept s _ 4 1 (hAccept _ _)]
  have h1 : min 1 (Int.toNat 4) = 1 := by decide
  simp only [h1]
  obtain ⟨r1, r2, r3⟩ := FPocoWorker.SendResponse.loop_acceptOne P Stray hLength fuel
    { s with Wire := s.Wire ++ (List.range 1).map
               (BytePtr.read ⟨rawBytes (P.length : Int), 0, Stray⟩),
             Calls := s.Calls ++ [⟨0, (rawBytes (P.length : Int)).length, 4⟩] }
    0 hAccept (by omega) (by omega)
  refine ⟨r1, r2, ?_⟩
  have hcast : ((0 : Nat) : Int) = 0 := rfl
  have hr : List.range 1 = [0] := rfl
  have hfirst : BytePtr.read ⟨rawBytes (P.length : Int), 0, Stray⟩ 0 =
      (rawBytes (P.length : Int)).get ⟨0, Nat.succ_pos 3⟩ :=
    BytePtr.read_in_bounds (rawBytes (P.length : Int)) Stray 0 (Nat.succ_pos 3)
  rw [hcast] at r3
  rw [r3]
  simp only [hr, List.map_cons, List.map_nil, hfirst, List.drop_zero]
  simp [rawBytes]

/-- The decoder returns the payload of a frame made of the raw length and the
payload. -/
theorem decodeFrame_frame (P : List Nat) (hLength : P.length < 2147483648) :
    decodeFrame (rawBytes (P.length : Int) ++ P) = some P := by
  have hu : ((P.length : Int) % 4294967296).toNat = P.length := by omega
  have hsum : P.length % 256 + 256 * (P.length / 256 % 256) + 65536 * (P.length / 65536 % 256)
      + 16777216 * (P.length / 16777216 % 256) = P.length := by omega
  simp only [rawBytes, hu, List.cons_append, List.nil_append, decodeFrame, hsum,
    toInt32_of_small _ hLength]
  simp

/-- C4. For every payload `P` shorter than 2^31 bytes, the bytes
`SendResponse` puts on a transport that takes every byte offered are the 4
raw bytes of the 32-bit length of `P` followed by `P`, `SendResponse` returns
true, and the decoder (read a 4-byte length, then that many bytes) applied to
those bytes returns `P`. -/
theorem FPocoWorker.SendResponse_frame_roundtrip (P : List Nat) (Stray : Int → Nat)
    (fuel : Nat) (s : FSocket) (hLength : P.length < 2147483648)
    (hAccept : ∀ k n : Nat, s.Accept k n = some n) (hFuel : 0 < fuel) :
    (FPocoWorker.SendResponse.frame P Stray fuel s).1 = some true ∧
    (FPocoWorker.SendResponse.frame P Stray fuel s).2.2.Wire =
      s.Wire ++ (rawBytes (P.length : Int) ++ P) ∧
    decodeFrame (rawBytes (P.length : Int) ++ P) = some P ∧
    (∀ (Serialize : FJsonObject → List Nat) (w : FPocoWorker),
      Serialize (FPocoWorker.SendResponse.build w) = P → w.Socket = s →
      (FPocoWorker.SendResponse Serialize Stray fuel w).Returned = some true ∧
      (FPocoWorker.SendResponse Serialize Stray fuel w).Worker.Socket.Wire =
        w.Socket.Wire ++ (rawBytes (P.length : Int) ++ P)) := by
  have h := FPocoWorker.SendResponse.frame_acceptAll P Stray fuel s hLength hAccept hFuel
  refine ⟨h.1, h.2.2, decodeFrame_frame P hLength, ?_⟩
  intro Serialize w hP hs
  subst hs
  simp only [FPocoWorker.SendResponse, hP]
  exact ⟨h.1, h.2.2⟩

/-- C4, at a concrete input: the payload `{}` on a new socket that takes every
byte offered. -/
theorem FPocoWorker.SendResponse_frame_roundtrip_witness :
    ([123, 125] : List Nat).length < 2147483648 ∧
    (∀ k n : Nat, (FSocket.fresh acceptAll).Accept k n = some n) ∧
    (FPocoWorker.SendResponse.frame [123, 125] (fun _ => 0) 1 (FSocket.fresh acceptAll)).2.2.Wire =
      (FSocket.fresh acceptAll).Wire ++ (rawBytes (([123, 125] : List Nat).length : Int)
        ++ [123, 125]) ∧
    decodeFrame (rawBytes (([123, 125] : List Nat).length : Int) ++ [123, 125]) =
      some [123, 125] :=
  have h1 : ([123, 125] : List Nat).length < 2147483648 := by decide
  have h2 : ∀ k n : Nat, (FSocket.fresh acceptAll).Accept k n = some n := fun _ _ => rfl
  have h := FPocoWorker.SendResponse_frame_roundtrip [123, 125] (fun _ => 0) 1
    (FSocket.fresh acceptAll) h1 h2 (by decide)
  ⟨h1, h2, h.2.1, h.2.2.1⟩

/-- C5 (the code at the failing input). On a transport that takes one byte
per call, the framing of the 25-byte response `{"jsonrpc":"2.0","id":""}`
returns true after the payload loop has sent the whole payload, but of the
4-byte length prefix `25 0 0 0` only the first byte reaches the peer: the
prefix is sent with a single `Send` call whose count is not looked at. -/
theorem FPocoWorker.SendResponse_frame_one_byte_transport :
    (FPocoWorker.SendResponse.frame envelopeBytes (fun _ => 0) 25
      (FSocket.fresh acceptOne)).1 = some true ∧
    (FPocoWorker.SendResponse.frame envelopeBytes (fun _ => 0) 25
      (FSocket.fresh acceptOne)).2.2.Wire = 25 :: envelopeBytes ∧
    rawBytes (envelopeBytes.length : Int) ++ envelopeBytes = 25 :: 0 :: 0 :: 0 :: envelopeBytes ∧
    (FPocoWorker.SendResponse.frame envelopeBytes (fun _ => 0) 25
      (FSocket.fresh acceptOne)).2.2.Wire ≠
      rawBytes (envelopeBytes.length : Int) ++ envelopeBytes := by
  decide

/-- C10 (the code at the failing input). The transport `acceptOneThenAll`
succeeds at every call and takes between 1 and the count asked. For the
25-byte payload `{"jsonrpc":"2.0","id":""}` the payload loop ends and
`SendResponse` returns true with `TotalSend` equal to 26, not 25: the second
payload call asks for 25 bytes from offset 1, one more than the buffer holds,
and the byte behind the buffer is sent as well. -/
theorem FPocoWorker.SendResponse_frame_overruns_payload :
    (∀ k n : Nat, 1 ≤ n → ∃ m : Nat, acceptOneThenAll k n = some m ∧ 1 ≤ m ∧ m ≤ n) ∧
    envelopeBytes.length = 25 ∧
    (FPocoWorker.SendResponse.frame envelopeBytes (fun _ => 0) 25
      (FSocket.fresh acceptOneThenAll)).1 = some true ∧
    (FPocoWorker.SendResponse.frame envelopeBytes (fun _ => 0) 25
      (FSocket.fresh acceptOneThenAll)).2.1 = 26 ∧
    (FPocoWorker.SendResponse.frame envelopeBytes (fun _ => 0) 25
      (FSocket.fresh acceptOneThenAll)).2.2.Calls =
      [⟨0, 4, 4⟩, ⟨0, 25, 25⟩, ⟨1, 25, 25⟩] ∧
    ¬ SendCall.InBounds ⟨1, 25, 25⟩ ∧
    (FPocoWorker.SendResponse.frame envelopeBytes (fun _ => 0) 25
      (FSocket.fresh acceptOneThenAll)).2.2.Wire =
      25 :: 0 :: 0 :: 0 :: (envelopeBytes ++ [0]) := by
  refine ⟨?_, by decide, by decide, by decide, by decide, by decide, by decide⟩
  intro k n hn
  by_cases hk : k = 1
  · exact ⟨1, by simp [acceptOneThenAll, hk], le_refl 1, hn⟩
  · exact ⟨n, by simp [acceptOneThenAll, hk], hn, le_refl n⟩

/-- C6 (the code at the failing input). On a new worker whose socket takes
every byte offered, `HandleRequest` returns false when `GetJsonString` fails,
when the request lacks a method and when it lacks an id; and whatever one
pass of the loop of `Run` receives, failures included, the pass calls
`SendResponse`, which puts a frame on the wire: the 4 length bytes of the
serialized response, then what the payload loop sends. -/
theorem FPocoWorker.Run_pass_sends_after_failure {Req : Type} (Parser : FJsonParser Req)
    (Serialize : FJsonObject → List Nat) (Stray : Int → Nat) (fuel : Nat)
    (inp : Incoming Req) :
    (FPocoWorker.HandleRequest Parser none inp.Hierarchy
      (FPocoWorker.new (FSocket.fresh acceptAll))).1 = false ∧
    (FPocoWorker.HandleRequest specParser (some methodlessRequest) inp.Hierarchy
      (FPocoWorker.new (FSocket.fresh acceptAll))).1 = false ∧
    (FPocoWorker.HandleRequest specParser (some idlessRequest) inp.Hierarchy
      (FPocoWorker.new (FSocket.fresh acceptAll))).1 = false ∧
    (FPocoWorker.Run.pass Parser Serialize Stray fuel ⟨none, inp.Hierarchy, inp.StopCalled⟩
      (FPocoWorker.new (FSocket.fresh acceptAll))).Worker.Response =
      [("jsonrpc", FJsonValue.String "2.0"), ("id", FJsonValue.String "")] ∧
    (∃ rest : List Nat,
      (FPocoWorker.Run.pass Parser Serialize Stray fuel inp
        (FPocoWorker.new (FSocket.fresh acceptAll))).Worker.Socket.Wire =
      rawBytes (toInt32 ((Serialize (FPocoWorker.SendResponse.build
        (FPocoWorker.HandleRequest Parser inp.Received inp.Hierarchy
          (FPocoWorker.new (FSocket.fresh acceptAll))).2)).length : Int)) ++ rest) ∧
    (FPocoWorker.Run.pass Parser Serialize Stray fuel inp
      (FPocoWorker.new (FSocket.fresh acceptAll))).Worker.Socket.Wire ≠ [] := by
  have hSocket : ∀ w : FPocoWorker,
      (FPocoWorker.HandleRequest Parser inp.Received inp.Hierarchy w).2.Socket = w.Socket := by
    intro w
    cases hR : inp.Received with
    | none => simp [FPocoWorker.HandleRequest]
    | some Request =>
      cases hM : Parser.GetMethod Request with
      | none => simp [FPocoWorker.HandleRequest, hM]
      | some Method =>
        rw [FPocoWorker.HandleRequest_of_method Parser w Request inp.Hierarchy Method hM]
        by_cases hv : FString.Equals Method "GetSDKVersion" ESearchCase.IgnoreCase = true
        · simp [hv]
        · by_cases hd : FString.Equals Method "Dump" ESearchCase.IgnoreCase = true
          · simp [hv, hd]
          · simp [hv, hd]
  have hFresh : (FPocoWorker.HandleRequest Parser inp.Received inp.Hierarchy
      (FPocoWorker.new (FSocket.fresh acceptAll))).2.Socket = FSocket.fresh acceptAll := by
    rw [hSocket]
    rfl
  have hWire : ∃ rest : List Nat,
      (FPocoWorker.Run.pass Parser Serialize Stray fuel inp
        (FPocoWorker.new (FSocket.fresh acceptAll))).Worker.Socket.Wire =
      rawBytes (toInt32 ((Serialize (FPocoWorker.SendResponse.build
        (FPocoWorker.HandleRequest Parser inp.Received inp.Hierarchy
          (FPocoWorker.new (FSocket.fresh acceptAll))).2)).length : Int)) ++ rest := by
    obtain ⟨rest, hrest⟩ := FPocoWorker.SendResponse.frame_wire_start
      (Serialize (FPocoWorker.SendResponse.build
        (FPocoWorker.HandleRequest Parser inp.Received inp.Hierarchy
          (FPocoWorker.new (FSocket.fresh acceptAll))).2)) Stray fuel
      (FPocoWorker.HandleRequest Parser inp.Received inp.Hierarchy
          (FPocoWorker.new (FSocket.fresh acceptAll))).2.Socket
      (by rw [hFresh]; rfl)
    refine ⟨rest, ?_⟩
    simp only [FPocoWorker.Run.pass, FPocoWorker.SendResponse]
    rw [hrest, hFresh]
    simp [FSocket.fresh]
  refine ⟨rfl, rfl, rfl, rfl, hWire, ?_⟩
  obtain ⟨rest, hrest⟩ := hWire
  rw [hrest]
  simp [rawBytes]

end Poco
